import Mathlib

/-!
Verification of the fetch-max / fetch-min atomic primitives of the
wg21-p0493 repository (src/fetch_max.hpp and src/atomic_maxmin_arm.hpp),
shallowly embedded for single-threaded executions.

The atomic location is modelled as an explicit value threaded through each
call.  `compare_exchange_weak` may spuriously fail even when the expected
value matches; we model this with an explicit finite schedule of spurious
failures (`sched : List Bool`, `true` = the corresponding attempt fails
spuriously).  Once the schedule is exhausted, attempts no longer fail
spuriously, reflecting the forward-progress guarantee that a weak
compare-and-swap eventually succeeds.  All results are proved for every
schedule.

Each call returns a `StratResult` recording the returned value, the final
location value, how many compare-and-swap writes hit the location, the
orderings of any dummy no-op writes (`fetch_add(0, m)`), and the orderings
with which the location was loaded.
-/

namespace P0493

/-- The six C++ memory orderings (std::memory_order). -/
inductive memory_order : Type
  | relaxed
  | consume
  | acquire
  | release
  | acq_rel
  | seq_cst
deriving DecidableEq, Repr

/-- Underlying integer value of each std::memory_order enumerator. -/
def memory_order.code : memory_order → Nat
  | .relaxed => 0
  | .consume => 1
  | .acquire => 2
  | .release => 3
  | .acq_rel => 4
  | .seq_cst => 5

/-- src/atomic_maxmin_arm.hpp lines 54-64: downgrade an ordering for use on a
bare load (release → relaxed, acq_rel → acquire, identity otherwise). -/
def load_order (m : memory_order) : memory_order :=
  if m = .release then .relaxed
  else if m = .acq_rel then .acquire
  else m

/-- std::max(a, b): returns b when a < b, otherwise a (a on ties). -/
def cppmax {α : Type} [LinearOrder α] (a b : α) : α :=
  if a < b then b else a

/-- std::min(a, b): returns b when b < a, otherwise a (a on ties). -/
def cppmin {α : Type} [LinearOrder α] (a b : α) : α :=
  if b < a then b else a

/-- One `compare_exchange_weak(expected, desired, m, m)` attempt against a
location currently holding `cur`.  `spurious` says whether this attempt fails
spuriously.  Returns (succeeded, new location value, new expected value):
on success the location takes `desired`; on failure the location is unchanged
and `expected` is refreshed to the observed value `cur`. -/
def cas_weak {α : Type} [DecidableEq α] (cur expected desired : α)
    (spurious : Bool) : Bool × α × α :=
  if cur = expected ∧ spurious = false then (true, desired, expected)
  else (false, cur, cur)

/-- Observable outcome of one fetch-max / fetch-min call in a single-threaded
execution. -/
structure StratResult (α : Type) where
  ret : α
  final : α
  casWrites : Nat
  dummyOrders : List memory_order
  loadOrders : List memory_order
deriving Repr, DecidableEq

/-- src/fetch_max.hpp lines 39-42 (and the compare-and-swap fallback of
src/atomic_maxmin_arm.hpp lines 75-76): the retry loop of the strong
strategy, abstracted over the max function `mx` of the value type (std::max
at the instantiating type).  `cur` is the location value, `t` the expected
value; it attempts `compare_exchange_weak(t, mx v t, m, m)` until success and
returns (returned value, final location value, number of writes).  When the
spurious-failure schedule runs out the remaining attempts are deterministic:
a failed deterministic attempt refreshes `t` to the location value, after
which the next attempt succeeds. -/
def strong_loop {α : Type} [DecidableEq α] (mx : α → α → α) (v : α) :
    List Bool → α → α → α × α × Nat
  | [], cur, t =>
    match cas_weak cur t (mx v t) false with
    | (true, c, _) => (t, c, 1)
    | (false, _, t2) => (t2, mx v t2, 1)
  | s :: rest, cur, t =>
    match cas_weak cur t (mx v t) s with
    | (true, c, _) => (t, c, 1)
    | (false, c, t2) => strong_loop mx v rest c t2

/-- src/fetch_max.hpp lines 52-57 and 67-71: the shared retry loop of the
weak and smart strategies, abstracted over the max function `mx`.  While
`mx v t ≠ t` it attempts `compare_exchange_weak(t, v, m, m)`; a success exits
the loop, a failure refreshes `t` and rechecks the condition.  The last
component reports whether the loop exited via a successful compare-and-swap
(true) or via the condition turning false (false). -/
def weakcas_loop {α : Type} [DecidableEq α] (mx : α → α → α) (v : α) :
    List Bool → α → α → α × α × Nat × Bool
  | [], cur, t =>
    if mx v t = t then (t, cur, 0, false)
    else
      match cas_weak cur t v false with
      | (true, c, _) => (t, c, 1, true)
      | (false, c, t2) =>
        if mx v t2 = t2 then (t2, c, 0, false)
        else (t2, v, 1, true)
  | s :: rest, cur, t =>
    if mx v t = t then (t, cur, 0, false)
    else
      match cas_weak cur t v s with
      | (true, c, _) => (t, c, 1, true)
      | (false, c, t2) => weakcas_loop mx v rest c t2

/-- src/fetch_max.hpp lines 33-44, atomic_fetch_max<type_e::strong>: load the
location with ordering `m` (the source passes `m` to the load unchanged),
then run the strong retry loop. -/
def fetch_max_strong {α : Type} [LinearOrder α] (pv v : α) (m : memory_order)
    (sched : List Bool) : StratResult α :=
  let t := pv
  let r := strong_loop cppmax v sched pv t
  ⟨r.1, r.2.1, r.2.2, [], [m]⟩

/-- src/fetch_max.hpp lines 46-59, atomic_fetch_max<type_e::weak>: load the
location with ordering `m`, then run the conditional retry loop; no dummy
write is ever issued. -/
def fetch_max_weak {α : Type} [LinearOrder α] (pv v : α) (m : memory_order)
    (sched : List Bool) : StratResult α :=
  let t := pv
  let r := weakcas_loop cppmax v sched pv t
  ⟨r.1, r.2.1, r.2.2.1, [], [m]⟩

/-- src/fetch_max.hpp lines 61-81, atomic_fetch_max<type_e::smart>: same loop
as the weak strategy, but a successful compare-and-swap returns immediately,
while an exit via the loop condition is followed by a dummy
`fetch_add(0, m)` when `m` is release, acq_rel or seq_cst. -/
def fetch_max_smart {α : Type} [LinearOrder α] [AddZeroClass α] (pv v : α)
    (m : memory_order) (sched : List Bool) : StratResult α :=
  let t := pv
  let r := weakcas_loop cppmax v sched pv t
  if r.2.2.2 then ⟨r.1, r.2.1, r.2.2.1, [], [m]⟩
  else if m = .release ∨ m = .acq_rel ∨ m = .seq_cst then
    ⟨r.1, r.2.1 + 0, r.2.2.1, [m], [m]⟩
  else ⟨r.1, r.2.1, r.2.2.1, [], [m]⟩

/-- src/atomic_maxmin_arm.hpp lines 74-77: the non-integral fallback of
atomic_fetch_max_explicit — load with the downgraded ordering
`load_order m`, then the strong compare-and-swap loop installing
`max(v, x)`. -/
def atomic_fetch_max_explicit_cas {α : Type} [LinearOrder α] (pv v : α)
    (m : memory_order) (sched : List Bool) : StratResult α :=
  let x := pv
  let r := strong_loop cppmax v sched pv x
  ⟨r.1, r.2.1, r.2.2, [], [load_order m]⟩

/-- src/atomic_maxmin_arm.hpp lines 90-92: the non-integral fallback of
atomic_fetch_min_explicit — load with `load_order m`, then the strong
compare-and-swap loop installing `min(v, x)`. -/
def atomic_fetch_min_explicit_cas {α : Type} [LinearOrder α] (pv v : α)
    (m : memory_order) (sched : List Bool) : StratResult α :=
  let x := pv
  let r := strong_loop cppmin v sched pv x
  ⟨r.1, r.2.1, r.2.2, [], [load_order m]⟩

/-!
Model of the hardware (inline-assembly) paths.  Values of an integral type
of byte-width `w` are represented by their bit patterns, natural numbers
below 2^(8*w).  `toSigned` is the two's-complement reading of a pattern.
The data semantics of the LDSMAX/LDUMAX/LDSMIN/LDUMIN instructions —
atomically store the signed/unsigned max/min of the location and the
operand, returning the prior location value; the four fence variants (none,
l, a, al) differ only in ordering, not in data — is
Modelled from the spec: §4.5 (hardware strategy dispatch and instruction
semantics) and the glossary entry for fetch-max/fetch-min, since the
instruction behaviour itself is not C++ code under src/.
-/

/-- Two's-complement value of a width-`w`-bytes bit pattern. -/
def toSigned (w : Nat) (a : Nat) : Int :=
  if a < 2 ^ (8 * w - 1) then (a : Int) else (a : Int) - 2 ^ (8 * w)

/-- Signed max of two width-`w` bit patterns, shaped like std::max
(returns `b` when `a < b` in the signed order, else `a`). -/
def smax (w : Nat) (a b : Nat) : Nat :=
  if toSigned w a < toSigned w b then b else a

/-- Unsigned max of two bit patterns, shaped like std::max. -/
def umax (a b : Nat) : Nat :=
  if a < b then b else a

/-- Signed min of two width-`w` bit patterns, shaped like std::min. -/
def smin (w : Nat) (a b : Nat) : Nat :=
  if toSigned w b < toSigned w a then b else a

/-- Unsigned min of two bit patterns, shaped like std::min. -/
def umin (a b : Nat) : Nat :=
  if b < a then b else a

/-- The max function std::max computes at an integral type of width `w` and
the given signedness, on bit patterns (the function the signed/unsigned
hardware max instruction realizes). -/
def tmax (w : Nat) (signed : Bool) (a b : Nat) : Nat :=
  if signed then smax w a b else umax a b

/-- The min counterpart of `tmax`. -/
def tmin (w : Nat) (signed : Bool) (a b : Nat) : Nat :=
  if signed then smin w a b else umin a b

/-- Outcome of a call that may hit an assertion or undefined behaviour:
`ok ret final` is a normal return, `assertFail` an assert(false)
termination, `unreachable` reaching __builtin_unreachable(). -/
inductive HwOutcome (α : Type)
  | ok (ret : α) (final : α)
  | assertFail
  | unreachable
deriving Repr, DecidableEq

/-- src/atomic_maxmin_arm.hpp lines 16-27, macro DEF0: dispatch on the raw
memory_order value `mcode` over the four instruction fence variants
(relaxed / release / acquire,consume / acq_rel,seq_cst), each performing
the atomic operation whose installed value is `op v pv` and whose result is
the prior location value; any other ordering value hits assert(false).
`op` is the width/signedness-selected instruction semantics. -/
def def0 (op : Nat → Nat → Nat) (mcode : Nat) (pv v : Nat) : HwOutcome Nat :=
  if mcode = 0 then .ok pv (op v pv)
  else if mcode = 3 then .ok pv (op v pv)
  else if mcode = 2 ∨ mcode = 1 then .ok pv (op v pv)
  else if mcode = 4 ∨ mcode = 5 then .ok pv (op v pv)
  else .assertFail

/-- src/atomic_maxmin_arm.hpp lines 29-47 (DEF1/DEF2) applied to the max
instruction family: width dispatch (8/4/2/1 bytes select the operand-size
suffix, any other width hits assert(false)) and signedness dispatch
(signed → LDSMAX, unsigned → LDUMAX). -/
def def2_max (w : Nat) (signed : Bool) (mcode : Nat) (pv v : Nat) :
    HwOutcome Nat :=
  if w = 8 ∨ w = 4 ∨ w = 2 ∨ w = 1 then def0 (tmax w signed) mcode pv v
  else .assertFail

/-- DEF1/DEF2 applied to the min instruction family (LDSMIN/LDUMIN). -/
def def2_min (w : Nat) (signed : Bool) (mcode : Nat) (pv v : Nat) :
    HwOutcome Nat :=
  if w = 8 ∨ w = 4 ∨ w = 2 ∨ w = 1 then def0 (tmin w signed) mcode pv v
  else .assertFail

/-- src/atomic_maxmin_arm.hpp lines 66-79, integral branch of
atomic_fetch_max_explicit: assert that the width is 8, 4, 2 or 1, then run
the DEF2 instruction dispatch. -/
def atomic_fetch_max_explicit_int (w : Nat) (signed : Bool) (mcode : Nat)
    (pv v : Nat) : HwOutcome Nat :=
  if w = 8 ∨ w = 4 ∨ w = 2 ∨ w = 1 then def2_max w signed mcode pv v
  else .assertFail

/-- src/atomic_maxmin_arm.hpp lines 82-95, integral branch of
atomic_fetch_min_explicit. -/
def atomic_fetch_min_explicit_int (w : Nat) (signed : Bool) (mcode : Nat)
    (pv v : Nat) : HwOutcome Nat :=
  if w = 8 ∨ w = 4 ∨ w = 2 ∨ w = 1 then def2_min w signed mcode pv v
  else .assertFail

/-- src/fetch_max.hpp lines 84-118, atomic_fetch_max<type_e::hardware> on
std::atomic<int> (32-bit signed; in-range values modelled directly as Int
with mathematical max).  `arm` says whether __ARM_ARCH_8A is defined.  On
ARM, the ordering dispatch covers the four LDSMAX fence variants and falls
through to __builtin_unreachable() on any other ordering value; off ARM the
body is just __builtin_unreachable(). -/
def fetch_max_hardware (arm : Bool) (pv v : Int) (mcode : Nat) :
    HwOutcome Int :=
  if arm then
    if mcode = 0 then .ok pv (cppmax v pv)
    else if mcode = 3 then .ok pv (cppmax v pv)
    else if mcode = 2 ∨ mcode = 1 then .ok pv (cppmax v pv)
    else if mcode = 4 ∨ mcode = 5 then .ok pv (cppmax v pv)
    else .unreachable
  else .unreachable

/-- The strong strategy template of src/fetch_max.hpp lines 33-44
instantiated at an integral type of width `w` and the given signedness:
std::max at that type is `tmax w signed` on bit patterns. -/
def fetch_max_strong_at (w : Nat) (signed : Bool) (pv v : Nat)
    (m : memory_order) (sched : List Bool) : StratResult Nat :=
  let t := pv
  let r := strong_loop (tmax w signed) v sched pv t
  ⟨r.1, r.2.1, r.2.2, [], [m]⟩

/-- A generic-strategy choice (the hardware specialization is modelled
separately as `fetch_max_hardware`). -/
inductive strategy : Type
  | strong
  | weak
  | smart
deriving DecidableEq, Repr

/-- One fetch-max call in a sequence: which strategy, the candidate, the
ordering, and the spurious-failure schedule of its retry loop. -/
structure Call where
  strat : strategy
  cand : Int
  ord : memory_order
  sched : List Bool

/-- Run one call against a location holding `st`. -/
def runCall (st : Int) (c : Call) : StratResult Int :=
  match c.strat with
  | .strong => fetch_max_strong st c.cand c.ord c.sched
  | .weak => fetch_max_weak st c.cand c.ord c.sched
  | .smart => fetch_max_smart st c.cand c.ord c.sched

/-- The successive location values produced by a sequence of calls,
starting from `st` (length: one more than the number of calls). -/
def trace (st : Int) : List Call → List Int
  | [] => [st]
  | c :: cs => st :: trace (runCall st c).final cs

/-!
Evaluation lemmas: closed forms of each strategy in a single-threaded
execution, valid for every spurious-failure schedule.
-/

theorem cppmax_eq_max {α : Type} [LinearOrder α] (a b : α) :
    cppmax a b = max a b := by
  unfold cppmax
  rcases lt_or_ge a b with h | h
  · rw [if_pos h, max_eq_right h.le]
  · rw [if_neg (not_lt.mpr h), max_eq_left h]

theorem cppmin_eq_min {α : Type} [LinearOrder α] (a b : α) :
    cppmin a b = min a b := by
  unfold cppmin
  rcases lt_or_ge b a with h | h
  · rw [if_pos h, min_eq_right h.le]
  · rw [if_neg (not_lt.mpr h), min_eq_left h]

theorem strong_loop_run {α : Type} [DecidableEq α] (mx : α → α → α) (v : α) :
    ∀ (sched : List Bool) (t : α),
      strong_loop mx v sched t t = (t, mx v t, 1) := by
  intro sched
  induction sched with
  | nil => intro t; simp [strong_loop, cas_weak]
  | cons s rest ih =>
    intro t
    cases s with
    | false => simp [strong_loop, cas_weak]
    | true => simp [strong_loop, cas_weak, ih]

theorem weakcas_loop_run {α : Type} [DecidableEq α] (mx : α → α → α) (v : α) :
    ∀ (sched : List Bool) (t : α),
      weakcas_loop mx v sched t t =
        if mx v t = t then (t, t, 0, false) else (t, v, 1, true) := by
  intro sched
  induction sched with
  | nil =>
    intro t
    by_cases h : mx v t = t
    · simp [weakcas_loop, h]
    · simp [weakcas_loop, h, cas_weak]
  | cons s rest ih =>
    intro t
    by_cases h : mx v t = t
    · simp [weakcas_loop, h]
    · cases s with
      | false => simp [weakcas_loop, h, cas_weak]
      | true => simp [weakcas_loop, h, cas_weak, ih]

theorem fetch_max_strong_run {α : Type} [LinearOrder α] (pv v : α)
    (m : memory_order) (sched : List Bool) :
    fetch_max_strong pv v m sched = ⟨pv, max v pv, 1, [], [m]⟩ := by
  simp only [fetch_max_strong, strong_loop_run, cppmax_eq_max]

theorem fetch_max_weak_run {α : Type} [LinearOrder α] (pv v : α)
    (m : memory_order) (sched : List Bool) :
    fetch_max_weak pv v m sched =
      if v ≤ pv then ⟨pv, pv, 0, [], [m]⟩ else ⟨pv, v, 1, [], [m]⟩ := by
  simp only [fetch_max_weak, weakcas_loop_run, cppmax_eq_max]
  by_cases h : v ≤ pv
  · rw [if_pos (max_eq_right h), if_pos h]
  · rw [if_neg, if_neg h]
    intro hmax
    exact h (hmax ▸ le_max_left v pv)

theorem fetch_max_smart_run {α : Type} [LinearOrder α] [AddZeroClass α]
    (pv v : α) (m : memory_order) (sched : List Bool) :
    fetch_max_smart pv v m sched =
      if v ≤ pv then
        (if m = .release ∨ m = .acq_rel ∨ m = .seq_cst then
          ⟨pv, pv + 0, 0, [m], [m]⟩ else ⟨pv, pv, 0, [], [m]⟩)
      else ⟨pv, v, 1, [], [m]⟩ := by
  simp only [fetch_max_smart, weakcas_loop_run, cppmax_eq_max]
  by_cases h : v ≤ pv
  · simp [max_eq_right h, h]
  · have hmax : ¬ max v pv = pv := fun hm => h (hm ▸ le_max_left v pv)
    simp [hmax, h]

theorem atomic_fetch_max_explicit_cas_run {α : Type} [LinearOrder α]
    (pv v : α) (m : memory_order) (sched : List Bool) :
    atomic_fetch_max_explicit_cas pv v m sched =
      ⟨pv, max v pv, 1, [], [load_order m]⟩ := by
  simp only [atomic_fetch_max_explicit_cas, strong_loop_run, cppmax_eq_max]

theorem atomic_fetch_min_explicit_cas_run {α : Type} [LinearOrder α]
    (pv v : α) (m : memory_order) (sched : List Bool) :
    atomic_fetch_min_explicit_cas pv v m sched =
      ⟨pv, min v pv, 1, [], [load_order m]⟩ := by
  simp only [atomic_fetch_min_explicit_cas, strong_loop_run, cppmin_eq_min]

theorem def0_valid (op : Nat → Nat → Nat) (m : memory_order) (pv v : Nat) :
    def0 op m.code pv v = .ok pv (op v pv) := by
  cases m <;> rfl

theorem def0_invalid (op : Nat → Nat → Nat) (mcode pv v : Nat)
    (h : 6 ≤ mcode) : def0 op mcode pv v = .assertFail := by
  have h0 : mcode ≠ 0 := by omega
  have h1 : mcode ≠ 1 := by omega
  have h2 : mcode ≠ 2 := by omega
  have h3 : mcode ≠ 3 := by omega
  have h4 : mcode ≠ 4 := by omega
  have h5 : mcode ≠ 5 := by omega
  simp [def0, h0, h1, h2, h3, h4, h5]

theorem toSigned_smax (w a b : Nat) :
    toSigned w (smax w a b) = max (toSigned w a) (toSigned w b) := by
  unfold smax
  rcases lt_or_ge (toSigned w a) (toSigned w b) with h | h
  · rw [if_pos h, max_eq_right h.le]
  · rw [if_neg (not_lt.mpr h), max_eq_left h]

theorem toSigned_smin (w a b : Nat) :
    toSigned w (smin w a b) = min (toSigned w a) (toSigned w b) := by
  unfold smin
  rcases lt_or_ge (toSigned w b) (toSigned w a) with h | h
  · rw [if_pos h, min_eq_right h.le]
  · rw [if_neg (not_lt.mpr h), min_eq_left h]

theorem umax_eq_max (a b : Nat) : umax a b = max a b := by
  unfold umax
  rcases lt_or_ge a b with h | h
  · rw [if_pos h, max_eq_right h.le]
  · rw [if_neg (not_lt.mpr h), max_eq_left h]

theorem umin_eq_min (a b : Nat) : umin a b = min a b := by
  unfold umin
  rcases lt_or_ge b a with h | h
  · rw [if_pos h, min_eq_right h.le]
  · rw [if_neg (not_lt.mpr h), min_eq_left h]

theorem runCall_final_ge (st : Int) (c : Call) : st ≤ (runCall st c).final := by
  rcases c with ⟨strat, cand, ord, sched⟩
  cases strat with
  | strong =>
    rw [runCall, fetch_max_strong_run]
    exact le_max_right cand st
  | weak =>
    rw [runCall, fetch_max_weak_run]
    by_cases h : cand ≤ st
    · rw [if_pos h]
    · rw [if_neg h]
      exact (not_le.mp h).le
  | smart =>
    rw [runCall, fetch_max_smart_run]
    by_cases h : cand ≤ st
    · rw [if_pos h]
      by_cases hm : ord = .release ∨ ord = .acq_rel ∨ ord = .seq_cst
      · rw [if_pos hm]
        simp
      · rw [if_neg hm]
    · rw [if_neg h]
      exact (not_le.mp h).le

theorem trace_head (st : Int) (cs : List Call) :
    (trace st cs).head? = some st := by
  cases cs <;> rfl

theorem trace_chain (cs : List Call) :
    ∀ st : Int, List.Chain' (· ≤ ·) (trace st cs) := by
  induction cs with
  | nil => intro st; simp [trace]
  | cons c rest ih =>
    intro st
    rw [trace]
    refine List.chain'_cons'.mpr ⟨?_, ih _⟩
    intro b hb
    rw [trace_head, Option.mem_def] at hb
    injection hb with hb
    exact hb ▸ runCall_final_ge st c

/-- C1: Single-threaded result correctness of fetch-max: each generic
strategy (strong, weak, smart) and the architecture-aware entry point
return the value the location held immediately before the call, and
afterwards the location holds the maximum of that returned value and the
candidate; in particular, from int32 value 5, fetch_max(loc, 9, relaxed)
returns 5 and leaves 9, and a subsequent fetch_max(loc, 3, relaxed)
returns 9 and leaves 9. -/
theorem fetch_max_single_thread_correct (st v : Int) (m : memory_order)
    (sched : List Bool) (a b : Nat) :
    ((fetch_max_strong st v m sched).ret = st ∧
      (fetch_max_strong st v m sched).final = max st v) ∧
    ((fetch_max_weak st v m sched).ret = st ∧
      (fetch_max_weak st v m sched).final = max st v) ∧
    ((fetch_max_smart st v m sched).ret = st ∧
      (fetch_max_smart st v m sched).final = max st v) ∧
    (atomic_fetch_max_explicit_int 4 true m.code a b = .ok a (smax 4 b a) ∧
      toSigned 4 (smax 4 b a) = max (toSigned 4 a) (toSigned 4 b)) ∧
    ((fetch_max_strong (5 : Int) 9 .relaxed []).ret = 5 ∧
      (fetch_max_strong (5 : Int) 9 .relaxed []).final = 9 ∧
      (fetch_max_strong (9 : Int) 3 .relaxed []).ret = 9 ∧
      (fetch_max_strong (9 : Int) 3 .relaxed []).final = 9 ∧
      atomic_fetch_max_explicit_int 4 true 0 5 9 = .ok 5 9 ∧
      atomic_fetch_max_explicit_int 4 true 0 9 3 = .ok 9 9) := by
  refine ⟨?_, ?_, ?_, ⟨?_, ?_⟩, by decide⟩
  · rw [fetch_max_strong_run]
    exact ⟨rfl, max_comm v st⟩
  · rw [fetch_max_weak_run]
    by_cases h : v ≤ st
    · rw [if_pos h]
      exact ⟨rfl, (max_eq_left h).symm⟩
    · rw [if_neg h]
      exact ⟨rfl, (max_eq_right (not_le.mp h).le).symm⟩
  · rw [fetch_max_smart_run]
    by_cases h : v ≤ st
    · rw [if_pos h]
      by_cases hm : m = .release ∨ m = .acq_rel ∨ m = .seq_cst
      · rw [if_pos hm]
        exact ⟨rfl, by simp [max_eq_left h]⟩
      · rw [if_neg hm]
        exact ⟨rfl, (max_eq_left h).symm⟩
    · rw [if_neg h]
      exact ⟨rfl, (max_eq_right (not_le.mp h).le).symm⟩
  · show (if (4 : Nat) = 8 ∨ (4 : Nat) = 4 ∨ (4 : Nat) = 2 ∨ (4 : Nat) = 1
        then def2_max 4 true m.code a b else .assertFail) = _
    rw [if_pos (by decide)]
    show (if (4 : Nat) = 8 ∨ (4 : Nat) = 4 ∨ (4 : Nat) = 2 ∨ (4 : Nat) = 1
        then def0 (tmax 4 true) m.code a b else .assertFail) = _
    rw [if_pos (by decide), def0_valid]
    rfl
  · rw [toSigned_smax]
    exact max_comm _ _

/-- C2: load_order maps release to relaxed and acq_rel to acquire, and is
the identity on relaxed, acquire, consume and seq_cst. -/
theorem load_order_spec :
    load_order .release = .relaxed ∧ load_order .acq_rel = .acquire ∧
    load_order .relaxed = .relaxed ∧ load_order .acquire = .acquire ∧
    load_order .consume = .consume ∧ load_order .seq_cst = .seq_cst := by
  decide

/-- C10: in a single-threaded execution the strong, weak and smart
strategies are observationally equivalent: for every initial value,
candidate and ordering (and any spurious-failure schedules) they return the
same value and leave the location holding the same final value. -/
theorem strategies_observational_equiv (st v : Int) (m : memory_order)
    (sched1 sched2 sched3 : List Bool) :
    (fetch_max_strong st v m sched1).ret = (fetch_max_weak st v m sched2).ret ∧
    (fetch_max_weak st v m sched2).ret = (fetch_max_smart st v m sched3).ret ∧
    (fetch_max_strong st v m sched1).final =
      (fetch_max_weak st v m sched2).final ∧
    (fetch_max_weak st v m sched2).final =
      (fetch_max_smart st v m sched3).final := by
  rw [fetch_max_strong_run, fetch_max_weak_run, fetch_max_smart_run]
  by_cases h : v ≤ st
  · by_cases hm : m = .release ∨ m = .acq_rel ∨ m = .seq_cst
    · simp [h, hm, max_eq_right h]
    · simp [h, hm, max_eq_right h]
  · simp [h, max_eq_left (not_le.mp h).le]

/-- C3 (divergence evaluation): the strong strategy of src/fetch_max.hpp
issues its initial load with the caller-supplied ordering unchanged — at
m = release the load carries release, the very ordering load_order exists
to remove (load_order release = relaxed) — while the non-integral fallback
of the architecture-aware entry point does issue its load with the
downgraded ordering, which is never release and never acq_rel. -/
theorem strong_load_order_divergence :
    (fetch_max_strong (5 : Int) 9 .release []).loadOrders =
        [memory_order.release] ∧
    load_order .release = .relaxed ∧
    (∀ (st v : Int) (m : memory_order) (sched : List Bool),
      (atomic_fetch_max_explicit_cas st v m sched).loadOrders =
          [load_order m] ∧
      load_order m ≠ .release ∧ load_order m ≠ .acq_rel) ∧
    (∀ (st v : Int) (m : memory_order) (sched : List Bool),
      (fetch_max_strong st v m sched).loadOrders = [m]) := by
  refine ⟨by decide, rfl, fun st v m sched => ⟨?_, ?_, ?_⟩,
    fun st v m sched => ?_⟩
  · rw [atomic_fetch_max_explicit_cas_run]
  · cases m <;> decide
  · cases m <;> decide
  · rw [fetch_max_strong_run]

/-- C4: when the candidate does not exceed the current value, the weak
strategy performs zero writes to the location (no compare-and-swap is
attempted), leaves the location unchanged and returns the observed current
value — for every spurious-failure schedule. -/
theorem weak_noop_no_write (st v : Int) (m : memory_order)
    (sched : List Bool) (h : v ≤ st) :
    (fetch_max_weak st v m sched).casWrites = 0 ∧
    (fetch_max_weak st v m sched).final = st ∧
    (fetch_max_weak st v m sched).ret = st := by
  rw [fetch_max_weak_run, if_pos h]
  exact ⟨rfl, rfl, rfl⟩

theorem weak_noop_no_write_witness :
    (3 : Int) ≤ 7 ∧
    ((fetch_max_weak (7 : Int) 3 .seq_cst []).casWrites = 0 ∧
      (fetch_max_weak (7 : Int) 3 .seq_cst []).final = 7 ∧
      (fetch_max_weak (7 : Int) 3 .seq_cst []).ret = 7) :=
  ⟨by decide, weak_noop_no_write 7 3 .seq_cst [] (by decide)⟩

/-- C5: the smart strategy issues exactly one dummy no-op write
(fetch_add of zero) carrying the requested ordering precisely when the loop
exits via the candidate-no-longer-improves branch (v ≤ st, so no
compare-and-swap occurred) and the ordering is release, acq_rel or seq_cst;
the dummy write leaves the value unchanged (the final value is always
max st v); on an exit via a successful compare-and-swap, or under relaxed,
acquire or consume, no dummy write is issued. -/
theorem smart_dummy_write_spec (st v : Int) (m : memory_order)
    (sched : List Bool) :
    (fetch_max_smart st v m sched).dummyOrders =
      (if v ≤ st ∧ (m = .release ∨ m = .acq_rel ∨ m = .seq_cst)
        then [m] else []) ∧
    (fetch_max_smart st v m sched).final = max st v ∧
    (fetch_max_smart st v m sched).casWrites =
      (if v ≤ st then 0 else 1) := by
  rw [fetch_max_smart_run]
  by_cases h : v ≤ st
  · by_cases hm : m = .release ∨ m = .acq_rel ∨ m = .seq_cst
    · simp [h, hm, max_eq_left h]
    · simp [h, hm, max_eq_left h]
  · simp [h, max_eq_right (not_le.mp h).le]

/-- C6: hardware/generic equivalence — for every integral width 1, 2, 4 or
8 bytes, either signedness, every ordering and every (initial, candidate)
pair of bit patterns, the architecture-aware entry point and the strong
compare-and-swap strategy instantiated at that type produce identical
(return value, final location value) pairs, for every spurious-failure
schedule. -/
theorem hardware_generic_equiv (w : Nat)
    (hw : w = 1 ∨ w = 2 ∨ w = 4 ∨ w = 8) (signed : Bool)
    (m : memory_order) (pv v : Nat) (sched : List Bool) :
    atomic_fetch_max_explicit_int w signed m.code pv v =
      .ok (fetch_max_strong_at w signed pv v m sched).ret
        (fetch_max_strong_at w signed pv v m sched).final := by
  have hw4 : w = 8 ∨ w = 4 ∨ w = 2 ∨ w = 1 := by tauto
  show (if w = 8 ∨ w = 4 ∨ w = 2 ∨ w = 1
      then def2_max w signed m.code pv v else .assertFail) = _
  rw [if_pos hw4]
  show (if w = 8 ∨ w = 4 ∨ w = 2 ∨ w = 1
      then def0 (tmax w signed) m.code pv v else .assertFail) = _
  rw [if_pos hw4, def0_valid]
  have hs : fetch_max_strong_at w signed pv v m sched =
      ⟨pv, tmax w signed v pv, 1, [], [m]⟩ := by
    simp only [fetch_max_strong_at, strong_loop_run]
  rw [hs]

theorem hardware_generic_equiv_witness :
    ((4 : Nat) = 1 ∨ (4 : Nat) = 2 ∨ (4 : Nat) = 4 ∨ (4 : Nat) = 8) ∧
    atomic_fetch_max_explicit_int 4 true memory_order.seq_cst.code 5 9 =
      .ok (fetch_max_strong_at 4 true 5 9 .seq_cst [true]).ret
        (fetch_max_strong_at 4 true 5 9 .seq_cst [true]).final :=
  ⟨by decide, hardware_generic_equiv 4 (by decide) true .seq_cst 5 9 [true]⟩

/-- C7: monotonicity under repetition — for every initial value and every
finite sequence of fetch-max calls (any mix of the strong, weak and smart
strategies) whose candidates form a non-increasing sequence, the location's
value after each call is greater than or equal to its value before that
call: the trace of location values is monotone non-decreasing. -/
theorem fetch_max_monotone_trace (st : Int) (cs : List Call)
    (_h : List.Chain' (fun a b => b ≤ a) (cs.map Call.cand)) :
    List.Chain' (· ≤ ·) (trace st cs) :=
  trace_chain cs st

theorem fetch_max_monotone_trace_witness :
    List.Chain' (fun a b => b ≤ a)
      (([⟨.strong, 9, .relaxed, []⟩, ⟨.weak, 3, .relaxed, [true]⟩,
          ⟨.smart, 3, .seq_cst, []⟩] : List Call).map Call.cand) ∧
    List.Chain' (· ≤ ·)
      (trace 5 [⟨.strong, 9, .relaxed, []⟩, ⟨.weak, 3, .relaxed, [true]⟩,
          ⟨.smart, 3, .seq_cst, []⟩]) :=
  ⟨by simp [List.chain'_cons, Call.cand], fetch_max_monotone_trace 5
    [⟨.strong, 9, .relaxed, []⟩, ⟨.weak, 3, .relaxed, [true]⟩,
      ⟨.smart, 3, .seq_cst, []⟩] (by simp [List.chain'_cons, Call.cand])⟩

/-- C8 counterexample: on an architecture without the native instruction,
the hardware strategy of src/fetch_max.hpp does not terminate with an
assertion failure as the claim states — its body is
__builtin_unreachable(), i.e. undefined behaviour. -/
theorem hardware_unreachable_not_assert :
    fetch_max_hardware false 5 9 0 ≠ HwOutcome.assertFail ∧
    fetch_max_hardware false 5 9 0 = HwOutcome.unreachable := by
  decide

/-- C8 amended: in the architecture-aware entry points every contract
violation is an assertion failure — an unsupported operand width (for both
fetch-max and fetch-min) hits assert(false) under every ordering value
`mcode0`, defined or not, and an ordering value outside the six defined
orderings hits assert(false) at every supported width — whereas the
hardware strategy of the generic design never asserts: an out-of-range
ordering value inside its instruction dispatch, and an architecture
without the native instruction, both reach __builtin_unreachable()
(undefined behaviour), not an assertion. -/
theorem contract_violation_outcomes (w : Nat)
    (hw : ¬(w = 8 ∨ w = 4 ∨ w = 2 ∨ w = 1)) (signed : Bool)
    (mcode0 : Nat) (mcode : Nat) (hm : 6 ≤ mcode) (w2 : Nat)
    (hw2 : w2 = 8 ∨ w2 = 4 ∨ w2 = 2 ∨ w2 = 1) (pv v : Nat) (st c : Int) :
    atomic_fetch_max_explicit_int w signed mcode0 pv v = .assertFail ∧
    atomic_fetch_min_explicit_int w signed mcode0 pv v = .assertFail ∧
    atomic_fetch_max_explicit_int w2 signed mcode pv v = .assertFail ∧
    atomic_fetch_min_explicit_int w2 signed mcode pv v = .assertFail ∧
    fetch_max_hardware true st c mcode = .unreachable ∧
    fetch_max_hardware false st c mcode = .unreachable := by
  have h0 : mcode ≠ 0 := by omega
  have h1 : mcode ≠ 1 := by omega
  have h2 : mcode ≠ 2 := by omega
  have h3 : mcode ≠ 3 := by omega
  have h4 : mcode ≠ 4 := by omega
  have h5 : mcode ≠ 5 := by omega
  refine ⟨?_, ?_, ?_, ?_, ?_, ?_⟩
  · unfold atomic_fetch_max_explicit_int
    rw [if_neg hw]
  · unfold atomic_fetch_min_explicit_int
    rw [if_neg hw]
  · unfold atomic_fetch_max_explicit_int def2_max
    rw [if_pos hw2, if_pos hw2, def0_invalid _ _ _ _ hm]
  · unfold atomic_fetch_min_explicit_int def2_min
    rw [if_pos hw2, if_pos hw2, def0_invalid _ _ _ _ hm]
  · unfold fetch_max_hardware
    simp [h0, h1, h2, h3, h4, h5]
  · unfold fetch_max_hardware
    simp

theorem contract_violation_outcomes_witness :
    ¬((3 : Nat) = 8 ∨ (3 : Nat) = 4 ∨ (3 : Nat) = 2 ∨ (3 : Nat) = 1) ∧
    (6 : Nat) ≤ 7 ∧
    ((4 : Nat) = 8 ∨ (4 : Nat) = 4 ∨ (4 : Nat) = 2 ∨ (4 : Nat) = 1) ∧
    (atomic_fetch_max_explicit_int 3 true 0 5 9 = .assertFail ∧
      atomic_fetch_min_explicit_int 3 true 0 5 9 = .assertFail ∧
      atomic_fetch_max_explicit_int 4 true 7 5 9 = .assertFail ∧
      atomic_fetch_min_explicit_int 4 true 7 5 9 = .assertFail ∧
      fetch_max_hardware true 1 2 7 = .unreachable ∧
      fetch_max_hardware false 1 2 7 = .unreachable) :=
  ⟨by decide, by decide, by decide,
    contract_violation_outcomes 3 (by decide) true 0 7 (by decide) 4
      (by decide) 5 9 1 2⟩

/-- C9: single-threaded result correctness of fetch-min: the non-integral
compare-and-swap path of atomic_fetch_min_explicit returns the prior value
and leaves the location holding the smaller of the prior value and the
candidate; the integral path returns the prior bit pattern and stores
tmin — the signed/unsigned minimum of the prior pattern and the candidate —
which under the signed reading is the Int minimum and under the unsigned
reading the Nat minimum. -/
theorem fetch_min_single_thread_correct (st v : Int) (m : memory_order)
    (sched : List Bool) (w : Nat) (hw : w = 8 ∨ w = 4 ∨ w = 2 ∨ w = 1)
    (signed : Bool) (a b : Nat) :
    ((atomic_fetch_min_explicit_cas st v m sched).ret = st ∧
      (atomic_fetch_min_explicit_cas st v m sched).final = min st v) ∧
    atomic_fetch_min_explicit_int w signed m.code a b =
      .ok a (tmin w signed b a) ∧
    toSigned w (tmin w true b a) = min (toSigned w a) (toSigned w b) ∧
    tmin w false b a = min a b := by
  refine ⟨?_, ?_, ?_, ?_⟩
  · rw [atomic_fetch_min_explicit_cas_run]
    exact ⟨rfl, min_comm v st⟩
  · show (if w = 8 ∨ w = 4 ∨ w = 2 ∨ w = 1
        then def2_min w signed m.code a b else .assertFail) = _
    rw [if_pos hw]
    show (if w = 8 ∨ w = 4 ∨ w = 2 ∨ w = 1
        then def0 (tmin w signed) m.code a b else .assertFail) = _
    rw [if_pos hw, def0_valid]
  · have ht : tmin w true b a = smin w b a := by simp [tmin]
    rw [ht, toSigned_smin, min_comm]
  · have ht : tmin w false b a = umin b a := by simp [tmin]
    rw [ht, umin_eq_min, min_comm]

theorem fetch_min_single_thread_correct_witness :
    ((4 : Nat) = 8 ∨ (4 : Nat) = 4 ∨ (4 : Nat) = 2 ∨ (4 : Nat) = 1) ∧
    (((atomic_fetch_min_explicit_cas (7 : Int) 3 .acq_rel [true]).ret = 7 ∧
        (atomic_fetch_min_explicit_cas (7 : Int) 3 .acq_rel [true]).final =
          min (7 : Int) 3) ∧
      atomic_fetch_min_explicit_int 4 true memory_order.acq_rel.code 7 3 =
        .ok 7 (tmin 4 true 3 7) ∧
      toSigned 4 (tmin 4 true 3 7) = min (toSigned 4 7) (toSigned 4 3) ∧
      tmin 4 false 3 7 = min 7 3) :=
  ⟨by decide,
    fetch_min_single_thread_correct 7 3 .acq_rel [true] 4 (by decide) true
      7 3⟩

end P0493
